import Mathlib

/-!
# Verification of the Observatory scanning core

A shallow embedding, in Lean 4, of the parts of the Observatory repository
(`src/bobs/...`) that the specification's claims are about:

* the Range Resolver `parse_start_and_end` (`bobs/obs/obs_utils.py`);
* the derived attributes of transaction candidates (`bobs/obs/candidates.py`);
* the framed-chunk Candidate Stream Decoder (`bobs/obs/targets.py`);
* the filtering loops of the Scan Orchestrator
  (`bobs/obs/generators.py`, `bobs/obs/scan.py`).

Python dictionaries are modelled as structures with `Option` fields where the
code guards (or fails) on key absence; Python exceptions are modelled with
`Except`/`Option`; Python `float` arithmetic is modelled over exact rationals
(`Rat`), which is faithful for every property proved here (they only involve
equality counting, zero tests and short-circuited branches, never rounding
behaviour).
-/

namespace Observatory

/-! ## Range Resolver (`bobs/obs/obs_utils.py`, `parse_start_and_end`)

`info` is the JSON dictionary returned by the node's `chaininfo` REST call.
The code reads three keys: `'pruned'` (guarded by an explicit membership
test), `'blocks'` (guarded by `try/except KeyError`) and `'pruneheight'`
(unguarded, so a missing key escapes as a `KeyError`).  Each is therefore an
`Option` field; `pruned = some b` models the key being present and holding
the boolean `b` (the code tests `info['pruned'] is True`). -/

structure ChainInfo where
  blocks : Option Int
  pruned : Option Bool
  pruneheight : Option Int
  deriving Repr, DecidableEq

/-- The errors `parse_start_and_end` raises, one constructor per Python
exception class, carrying the message passed to `print_error` at the raising
site (the two "malformed" messages also dump the whole `info` dictionary in
the source; the dump is elided here).  A missing `'pruneheight'` key escapes
as a `KeyError` rather than a `ValueError`. -/
inductive ParseErr where
  | invalidEnd (message : String)
  | invalidStart (message : String)
  | malformedChainInfo (message : String)
  | keyError (key : String)
  deriving Repr, DecidableEq

/-- The message printed (lines 108–110 of `obs_utils.py`) when `start` is
below the prune height and `force` is not set; it ends by directing the user
to the `force=True` option. -/
def pruneStartMessage (ph : Int) : String :=
  "Start block height is lower than the lowest-height complete block stored (" ++
    toString ph ++
    "), if you want to scan anyway starting from lowest available height " ++
    "add argument \x60force=True\x60"

/-- Lines 98–113 of `obs_utils.py`: the pruning checks applied to the already
resolved `(start, end)` pair.  `if info['pruned'] is True:` then `end` against
`info['pruneheight']`, then `start` against it with the `force` clamp. -/
def pruneCheck (info : ChainInfo) (force : Bool) (s e : Int) :
    Except ParseErr (Int × Int) :=
  match info.pruned with
  | some true =>
    match info.pruneheight with
    | none => .error (.keyError "pruneheight")
    | some ph =>
      if e < ph then
        .error (.invalidEnd
          ("End block height is lower than the lowest-height complete block stored (" ++
            toString ph ++ ")"))
      else if s < ph then
        if force then .ok (ph, e)
        else .error (.invalidStart (pruneStartMessage ph))
      else .ok (s, e)
  | _ => .ok (s, e)

/-- `parse_start_and_end(start, end, info, force)` from
`bobs/obs/obs_utils.py` (lines 38–113).  The two `isinstance` checks cannot
fail in this typed embedding (`start`, `end` are `Int` by type); the
remaining control flow is translated clause by clause:

1. `end < 0` raises `ValueError` ("End height cannot be negative");
2. `start > end` raises `ValueError` (on the raw inputs as given);
3. a missing `'pruned'` key raises `ValueError` (malformed chain info);
4. if `start < 0`, a missing `'blocks'` key raises `ValueError`
   (malformed chain info), then negative-offset resolution runs
   (`if not end:` is Python integer truthiness, i.e. `end == 0`);
5. the pruning checks of `pruneCheck` run on the resolved pair. -/
def parse_start_and_end (start end_ : Int) (info : ChainInfo) (force : Bool) :
    Except ParseErr (Int × Int) :=
  if end_ < 0 then
    .error (.invalidEnd "End height cannot be negative")
  else if start > end_ then
    .error (.invalidStart
      ("Start height (" ++ toString start ++ ") is higher than end height (" ++
        toString end_ ++ ")"))
  else
    match info.pruned with
    | none => .error (.malformedChainInfo
        "Blockchain info data does not contain the prune status")
    | some _ =>
      if start < 0 then
        match info.blocks with
        | none => .error (.malformedChainInfo
            "Blockchain info data does not contain the number of blocks")
        | some block_count =>
          if end_ = 0 then
            pruneCheck info force (block_count + start + 1) block_count
          else
            let s := block_count + start + 1
            let potential_end := s + end_ - 1
            pruneCheck info force s
              (if potential_end ≤ block_count then potential_end else block_count)
      else
        pruneCheck info force start end_

/-! ## Transaction candidates (`bobs/obs/candidates.py`)

The derived attributes of `Transaction`/`TransactionV3` are pure functions of
the immutable decoded JSON record.  The record is modelled by the fields the
candidate code actually reads; monetary values (Python floats decoded from
JSON) are modelled as exact rationals.  A Python `KeyError`/`IndexError`
escaping from an attribute is modelled by `Option` (`none` = the attribute
raises). -/

/-- The `prevout` object of a transaction input (present in getblock
verbosity 3 data).  `scriptPubKey` is read with `.get('address', '')`, so
the address is optional with default `""`; the `type` key is read by plain
indexing, so its absence is an error. -/
structure PrevOut where
  value : Rat
  address : Option String
  scriptType : Option String
  deriving Repr, DecidableEq

/-- One entry of `raw_data['vin']`: `hasCoinbase` models whether the input
dictionary contains the `'coinbase'` key; the `prevout` key may be absent
(it is, on the first input of a coinbase transaction). -/
structure TxIn where
  hasCoinbase : Bool
  prevout : Option PrevOut
  deriving Repr, DecidableEq

/-- One entry of `raw_data['vout']`. -/
structure TxOut where
  value : Rat
  address : Option String
  scriptType : Option String
  deriving Repr, DecidableEq

/-- The raw transaction record: the keys read by the candidate attributes.
`fee` models the node-reported `'fee'` key, which may be absent
(`Transaction.abs_fee` guards it with `try/except KeyError`). -/
structure RawTx where
  vin : List TxIn
  vout : List TxOut
  fee : Option Rat
  vsize : Option Rat
  deriving Repr, DecidableEq

/-- Python's `round` (banker's rounding, half to even) on an exact value. -/
def roundHalfEven (x : Rat) : Int :=
  let f := ⌊x⌋
  let r := x - f
  if r < 1/2 then f
  else if 1/2 < r then f + 1
  else if f % 2 = 0 then f else f + 1

/-- `round(x, n)` from Python, over exact rationals. -/
def pythonRound (x : Rat) (n : Nat) : Rat :=
  (roundHalfEven (x * (10 ^ n : Nat)) : Rat) / ((10 ^ n : Nat) : Rat)

/-- `Transaction.is_coinbase`: `'coinbase' in self.raw_data['vin'][0]`
(`vin[0]` on an empty input list raises `IndexError`, hence `none`). -/
def is_coinbase (tx : RawTx) : Option Bool :=
  tx.vin.head?.map (fun i => i.hasCoinbase)

/-- `Transaction.out_values`: the value of each output, in order. -/
def out_values (tx : RawTx) : List Rat :=
  tx.vout.map (fun o => o.value)

/-- `Transaction.total_out`: `round(sum(self.out_values), 8)`. -/
def total_out (tx : RawTx) : Rat :=
  pythonRound (out_values tx).sum 8

/-- `TransactionV3.in_values`: empty for coinbase, else each input's
`prevout['value']` (a missing `prevout` key raises). -/
def in_values (tx : RawTx) : Option (List Rat) :=
  match is_coinbase tx with
  | none => none
  | some true => some []
  | some false => tx.vin.mapM (fun i => i.prevout.map (fun po => po.value))

/-- `TransactionV3.total_in`: `round(sum(self.in_values), 8)`. -/
def total_in (tx : RawTx) : Option Rat :=
  (in_values tx).map (fun vs => pythonRound vs.sum 8)

/-- `TransactionV3.abs_fee` (lines 180–190): first `try: return self.fee`
(the raw `'fee'` key, returned whenever present — also for coinbase
transactions); on `KeyError`, `0.0` for coinbase, else
`round(total_in − total_out, 8)`. -/
def abs_fee (tx : RawTx) : Option Rat :=
  match tx.fee with
  | some f => some f
  | none =>
    match is_coinbase tx with
    | none => none
    | some true => some 0
    | some false => (total_in tx).map (fun ti => pythonRound (ti - total_out tx) 8)

/-- `TransactionV3.rel_fee` (lines 192–200): `0.0` for coinbase, else
`round(abs_fee * 1e8 / vsize, 1)`. -/
def rel_fee (tx : RawTx) : Option Rat :=
  match is_coinbase tx with
  | none => none
  | some true => some 0
  | some false =>
    match abs_fee tx, tx.vsize with
    | some f, some v => some (pythonRound (f * 100000000 / v) 1)
    | _, _ => none

/-- `TransactionV3.in_addrs` (lines 209–217): empty for coinbase, else each
input's `prevout['scriptPubKey'].get('address', '')`. -/
def in_addrs (tx : RawTx) : Option (List String) :=
  match is_coinbase tx with
  | none => none
  | some true => some []
  | some false =>
    tx.vin.mapM (fun i => i.prevout.map (fun po => po.address.getD ""))

/-- `TransactionV3.in_types` (lines 226–234): empty for coinbase, else each
input's `prevout['scriptPubKey']['type']`. -/
def in_types (tx : RawTx) : Option (List String) :=
  match is_coinbase tx with
  | none => none
  | some true => some []
  | some false =>
    tx.vin.mapM (fun i => i.prevout.bind (fun po => po.scriptType))

/-- One update step of Python's `collections.Counter`: increment the count
of `x` if already seen, otherwise append `(x, 1)`; insertion order of first
occurrences is preserved (Python dicts are ordered). -/
def addToCounter (acc : List (Rat × Nat)) (x : Rat) : List (Rat × Nat) :=
  if acc.any (fun p => p.1 == x) then
    acc.map (fun p => if p.1 == x then (p.1, p.2 + 1) else p)
  else acc ++ [(x, 1)]

/-- `Counter(xs)`: value → frequency pairs, in first-occurrence order. -/
def counter (xs : List Rat) : List (Rat × Nat) :=
  xs.foldl addToCounter []

/-- `Counter.most_common(1)[0]`: the first entry of the counter achieving
the maximal count (`heapq.nlargest` is a stable descending sort, so ties go
to the earliest-inserted value); `none` models the `IndexError` on an empty
counter. -/
def most_common1 (c : List (Rat × Nat)) : Option (Rat × Nat) :=
  match c with
  | [] => none
  | p :: rest => some (rest.foldl (fun best q => if best.2 < q.2 then q else best) p)

/-- `Transaction.out_counter`. -/
def out_counter (tx : RawTx) : List (Rat × Nat) :=
  counter (out_values tx)

/-- `TransactionV3.in_counter`. -/
def in_counter (tx : RawTx) : Option (List (Rat × Nat)) :=
  (in_values tx).map counter

/-- `Transaction.n_eq` (lines 116–121): `out_counter.most_common(1)[0][1]`. -/
def n_eq (tx : RawTx) : Option Nat :=
  (most_common1 (out_counter tx)).map (fun p => p.2)

/-- `Transaction.den` (lines 123–130):
`out_counter.most_common(1)[0][0] if n_eq > 1 else 0` (evaluating `n_eq`
first, so an empty output list raises there). -/
def den (tx : RawTx) : Option Rat :=
  match n_eq tx with
  | none => none
  | some k => if 1 < k then (most_common1 (out_counter tx)).map (fun p => p.1) else some 0

/-! ## Candidate Stream Decoder (`bobs/obs/targets.py`)

The Gatherer writes raw byte chunks to the result queue, framed by the
sentinel `b''` (end of item) and `b'END'` (end of stream).  The consumer
side is pure given the sequence of queue reads, which we model as a list of
chunks; a chunk is a list of bytes.  JSON decoding (`orjson.loads`) is an
external collaborator and is passed in as an abstract function. -/

/-- A raw byte chunk read from the result queue. -/
abbrev Chunk := List Nat

/-- The end-of-stream sentinel `b'END'` (`E`, `N`, `D`). -/
def endMarker : Chunk := [69, 78, 68]

/-- `Target._get_buffers` (lines 88–105): accumulate chunks into `buffer`
(the running `bytearray`), yield the buffer and reset it at each `b''`
end-of-item marker, and stop at `b'END'` (discarding whatever partial
buffer has accumulated). -/
def get_buffers (buffer : Chunk) : List Chunk → List Chunk
  | [] => []
  | chunk :: rest =>
    if chunk = [] then buffer :: get_buffers [] rest
    else if chunk = endMarker then []
    else get_buffers (buffer ++ chunk) rest

/-- `Target._get_raw_candidates` (lines 107–112):
`map(loads, self._get_buffers())`. -/
def get_raw_candidates {J : Type} (loads : Chunk → J) (stream : List Chunk) :
    List J :=
  (get_buffers [] stream).map loads

/-- The chunk stream the Gatherer produces for a run of items: each item's
chunks followed by one end-of-item marker, then one end-of-stream marker. -/
def encodeStream (items : List (List Chunk)) : List Chunk :=
  (items.map (fun cs => cs ++ [[]])).flatten ++ [endMarker]

/-- `MempoolTxsV2._get_buffers` (lines 239–244): every queue item is a
complete buffer; stop at `b'END'` (no end-of-item markers in this framing). -/
def mempool_get_buffers : List Chunk → List Chunk
  | [] => []
  | buffer :: rest =>
    if buffer = endMarker then [] else buffer :: mempool_get_buffers rest

/-- `int.from_bytes(bs, sys.byteorder)` on a little-endian platform. -/
def int_from_bytes (bs : List Nat) : Nat :=
  bs.foldr (fun b acc => b + 256 * acc) 0

/-- The raw candidate yielded by `MempoolTxsV2._get_raw_candidates`: the
decoded transaction with the `'height'` and `'timestamp_date'` keys
injected. -/
structure MemRawTx (J : Type) where
  tx : J
  height : Nat
  timestamp_date : Nat

/-- `MempoolTxsV2._get_raw_candidates` (lines 246–257): consume buffers in
threes (transaction body, 3-byte height, 8-byte timestamp); if the trailing
height/timestamp buffers are missing when the stream ends, the
`StopIteration` is caught and the generator returns, silently discarding the
partial item. -/
def mempool_raw_candidates {J : Type} (loads : Chunk → J) :
    List Chunk → List (MemRawTx J)
  | b1 :: b2 :: b3 :: rest =>
    ⟨loads b1, int_from_bytes b2, int_from_bytes b3⟩ ::
      mempool_raw_candidates loads rest
  | _ => []

/-- The buffer stream the mempool V2 Gatherer produces: for each
transaction, its body, its height bytes and its timestamp bytes. -/
def encodeMempoolStream (triples : List (Chunk × Chunk × Chunk)) : List Chunk :=
  (triples.map (fun t => [t.1, t.2.1, t.2.2])).flatten

/-! ## Scan Orchestrator filtering (`bobs/obs/generators.py`, `bobs/obs/scan.py`)

The match-policy application of the orchestrator over an already-produced
candidate sequence.  A filter is modelled by its `match` predicate
(`f_matches = [f.match for f in filters]`); the raw block/transaction
payloads are abstract. -/

/-- The `Tx` wrapper built by `iterate_block_txs`/`scan_mem` (raw record
plus the parent block's time and height). -/
structure WrappedTx (R : Type) where
  raw : R
  date : Int
  height : Int

/-- A block as used by `iterate_block_txs`: its transactions, time, height. -/
structure BlockRec (R : Type) where
  tx : List R
  time : Int
  height : Int

/-- `iterate_block_txs` (`generators.py`, lines 48–55): wrap each of the
block's transactions with the block's time and height. -/
def iterate_block_txs {R : Type} (block : BlockRec R) : List (WrappedTx R) :=
  block.tx.map (fun t => ⟨t, block.time, block.height⟩)

/-- `all if match_all else any` applied to the filter verdicts. -/
def match_policy (match_all : Bool) (bs : List Bool) : Bool :=
  if match_all then bs.all id else bs.any id

/-- `iter_filter_block_txs` (`generators.py`, lines 58–72): yield every
wrapped transaction when there are no filters (`no_filter`), else yield it
when the match policy over all filter verdicts accepts it. -/
def iter_filter_block_txs {R : Type} (block : BlockRec R) (match_all : Bool)
    (filters : List (WrappedTx R → Bool)) : List (WrappedTx R) :=
  (iterate_block_txs block).filter (fun tx =>
    if filters.isEmpty then true
    else match_policy match_all (filters.map (fun f => f tx)))

/-- The candidate-collection loop of `scan_mem` (`scan.py`, lines 77–96),
over the sequence of successfully awaited transactions: append every one
when there are no filters, else append those the match policy accepts. -/
def scan_mem_collect {R : Type} (match_all : Bool)
    (filters : List (WrappedTx R → Bool)) (txs : List (WrappedTx R)) :
    List (WrappedTx R) :=
  txs.filter (fun tx =>
    if filters.isEmpty then true
    else match_policy match_all (filters.map (fun f => f tx)))

end Observatory

namespace Observatory

/-- **C7.** Any request with a negative `end`, and any request with
`start > end` on the raw inputs as given, is rejected with the corresponding
invalid-argument (`ValueError`) error, for every `chain_info` and every value
of `force`; the `end < 0` check fires first when both apply.  No field of
`chain_info` is consulted: the result is the same for all `info`. -/
theorem c7_invalid_argument_precedes_chain_info (s e : Int) (info : ChainInfo)
    (force : Bool) (h : e < 0 ∨ s > e) :
    parse_start_and_end s e info force =
      .error (if e < 0 then
          ParseErr.invalidEnd "End height cannot be negative"
        else
          ParseErr.invalidStart
            ("Start height (" ++ toString s ++ ") is higher than end height (" ++
              toString e ++ ")")) := by
  rcases h with h | h
  · simp [parse_start_and_end, h]
  · rcases lt_or_le e 0 with he | he
    · simp [parse_start_and_end, he]
    · simp [parse_start_and_end, not_lt.mpr he, h]

theorem c7_invalid_argument_precedes_chain_info_witness :
    ((-3 : Int) < 0 ∨ (5 : Int) > (-3 : Int)) ∧
      parse_start_and_end 5 (-3) ⟨none, none, none⟩ true =
        .error (ParseErr.invalidEnd "End height cannot be negative") := by
  refine ⟨Or.inl (by decide), ?_⟩
  have h := c7_invalid_argument_precedes_chain_info 5 (-3) ⟨none, none, none⟩ true
    (Or.inl (by decide))
  simpa using h

/-- **C3.** Negative-offset resolution on an unpruned chain with tip `tip`:
`(start, end) = (-N, 0)` with `N > 0` resolves to `(tip − N + 1, tip)`, and
`(start, end) = (-N, M)` with `M > 0` resolves to
`(tip − N + 1, min (tip − N + M) tip)`. -/
theorem c3_negative_start_resolution (N M tip : Int) (hN : 0 < N) (hM : 0 < M) :
    ∀ force,
      parse_start_and_end (-N) 0 ⟨some tip, some false, none⟩ force =
        .ok (tip - N + 1, tip) ∧
      parse_start_and_end (-N) M ⟨some tip, some false, none⟩ force =
        .ok (tip - N + 1, min (tip - N + M) tip) := by
  intro force
  have hs : (-N : Int) < 0 := by omega
  constructor
  · simp [parse_start_and_end, pruneCheck, not_lt.mpr (le_of_lt hN), hs]
    omega
  · have h1 : ¬ (M < 0) := by omega
    have h2 : ¬ (-N > M) := by omega
    have h3 : ¬ (M = 0) := by omega
    simp [parse_start_and_end, pruneCheck, hs, h1, h2, h3]
    constructor
    · omega
    · split_ifs <;> omega

/-- Helper: whatever `(s, e)` pair with `s ≤ e` reaches the pruning block
(lines 98–113), a successful result satisfies `s' ≤ e'`, and when the node is
pruned with prune height `ph`, both components are at least `ph`. -/
theorem pruneCheck_ok_bounds (info : ChainInfo) (force : Bool) (a b s' e' : Int)
    (hab : a ≤ b) (h : pruneCheck info force a b = .ok (s', e')) :
    s' ≤ e' ∧
      ∀ ph, info.pruned = some true → info.pruneheight = some ph →
        ph ≤ s' ∧ ph ≤ e' := by
  rcases info with ⟨blocks, pruned, pruneheight⟩
  match pruned with
  | none =>
    simp only [pruneCheck] at h
    cases h
    exact ⟨hab, by intro ph hp; cases hp⟩
  | some false =>
    simp only [pruneCheck] at h
    cases h
    exact ⟨hab, by intro ph hp; cases hp⟩
  | some true =>
    match pruneheight with
    | none => simp [pruneCheck] at h
    | some ph =>
      simp only [pruneCheck] at h
      by_cases hb : b < ph
      · simp [hb] at h
      · by_cases ha : a < ph
        · cases force with
          | false => simp [hb, ha] at h
          | true =>
            simp [hb, ha] at h
            obtain ⟨h1, h2⟩ := h
            subst h1; subst h2
            refine ⟨by omega, ?_⟩
            intro ph' _ hph'
            cases hph'
            omega
        · simp [hb, ha] at h
          obtain ⟨h1, h2⟩ := h
          subst h1; subst h2
          refine ⟨hab, ?_⟩
          intro ph' _ hph'
          cases hph'
          omega

theorem c3_negative_start_resolution_witness :
    (0 : Int) < 10 ∧ (0 : Int) < 5 ∧
      parse_start_and_end (-10) 0 ⟨some 100, some false, none⟩ false =
        .ok (91, 100) ∧
      parse_start_and_end (-10) 5 ⟨some 100, some false, none⟩ false =
        .ok (91, 95) := by
  have h := c3_negative_start_resolution 10 5 100 (by decide) (by decide) false
  exact ⟨by decide, by decide, by simpa using h.1, by simpa using h.2⟩

/-- **C1 (counterexample).** The claimed post-resolution invariants fail on
the code: with an unpruned tip of 100, the request `(5, 200)` succeeds with
`end = 200 > 100` (the tip bound is never checked for non-negative `start`);
with a tip of 10, `(-20, 0)` succeeds with `start = -9 < 0`, and `(-20, 5)`
succeeds with `end = -5 < 0`. -/
theorem c1_resolver_invariants_counterexample :
    parse_start_and_end 5 200 ⟨some 100, some false, none⟩ false = .ok (5, 200) ∧
      ¬ ((200 : Int) ≤ 100) ∧
    parse_start_and_end (-20) 0 ⟨some 10, some false, none⟩ false = .ok (-9, 10) ∧
      ¬ ((0 : Int) ≤ -9) ∧
    parse_start_and_end (-20) 5 ⟨some 10, some false, none⟩ false = .ok (-9, -5) ∧
      ¬ ((0 : Int) ≤ -5) :=
  ⟨rfl, by decide, rfl, by decide, rfl, by decide⟩

/-- **C1 (amended).** For every input on which `parse_start_and_end` returns
successfully, the returned pair satisfies `start ≤ end`, and when
`chain_info` reports the node as pruned (with a prune height present), both
`start` and `end` are at least the prune height.  The originally claimed
bounds `start ≥ 0`, `end ≥ 0` and `end ≤ tip` do not hold in general (see
the counterexample). -/
theorem c1_resolver_invariants (s e : Int) (info : ChainInfo) (force : Bool)
    (s' e' : Int) (h : parse_start_and_end s e info force = .ok (s', e')) :
    s' ≤ e' ∧
      ∀ ph, info.pruned = some true → info.pruneheight = some ph →
        ph ≤ s' ∧ ph ≤ e' := by
  rcases info with ⟨blocks, pruned, pruneheight⟩
  by_cases he : e < 0
  · simp [parse_start_and_end, he] at h
  by_cases hse : s > e
  · simp [parse_start_and_end, he, hse] at h
  by_cases hs : s < 0
  · cases pruned with
    | none => simp [parse_start_and_end, he, hse] at h
    | some pv =>
      cases blocks with
      | none => simp [parse_start_and_end, he, hse, hs] at h
      | some bc =>
        by_cases he0 : e = 0
        · simp only [parse_start_and_end, if_neg he, if_neg hse, if_pos hs,
            if_pos he0] at h
          exact pruneCheck_ok_bounds _ force _ _ s' e' (by omega) h
        · simp only [parse_start_and_end, if_neg he, if_neg hse, if_pos hs,
            if_neg he0] at h
          refine pruneCheck_ok_bounds _ force _ _ s' e' ?_ h
          split_ifs <;> omega
  · cases pruned with
    | none => simp [parse_start_and_end, he, hse] at h
    | some pv =>
      simp only [parse_start_and_end, if_neg he, if_neg hse, if_neg hs] at h
      exact pruneCheck_ok_bounds _ force s e s' e' (by omega) h

theorem c1_resolver_invariants_witness :
    parse_start_and_end 30 80 ⟨some 100, some true, some 50⟩ true = .ok (50, 80) ∧
      (50 : Int) ≤ 80 ∧
      ∀ ph, (some true : Option Bool) = some true → (some (50 : Int)) = some ph →
        ph ≤ 50 ∧ ph ≤ 80 := by
  refine ⟨rfl, ?_, ?_⟩
  · exact (c1_resolver_invariants 30 80 ⟨some 100, some true, some 50⟩ true 50 80 rfl).1
  · exact (c1_resolver_invariants 30 80 ⟨some 100, some true, some 50⟩ true 50 80 rfl).2

/-- **C4 (counterexample).** The claim fails for a missing tip height with
non-negative `start`: `chain_info = {pruned: false}` lacks the `'blocks'`
key, yet `parse_start_and_end(1, 2, info, False)` succeeds with `(1, 2)`
instead of failing with the malformed-chain-info error. -/
theorem c4_malformed_chain_info_counterexample :
    parse_start_and_end 1 2 ⟨none, some false, none⟩ false = .ok (1, 2) := rfl

/-- **C4 (amended).** For every `start`/`end` passing the
integer/negativity/ordering checks: a missing pruning flag always fails with
the malformed-chain-info error (whether `start` is negative or not); a
missing tip height fails with the malformed-chain-info error only when
`start < 0` — when `start ≥ 0` the `'blocks'` key is never consulted, and on
an unpruned chain the resolver succeeds even without it. -/
theorem c4_malformed_chain_info (s e : Int) (info : ChainInfo) (force : Bool)
    (he : 0 ≤ e) (hse : s ≤ e) :
    (info.pruned = none →
      parse_start_and_end s e info force =
        .error (.malformedChainInfo
          "Blockchain info data does not contain the prune status")) ∧
    (s < 0 → info.blocks = none → ∀ b, info.pruned = some b →
      parse_start_and_end s e info force =
        .error (.malformedChainInfo
          "Blockchain info data does not contain the number of blocks")) ∧
    (0 ≤ s → info.pruned = some false →
      parse_start_and_end s e info force = .ok (s, e)) := by
  have he' : ¬ e < 0 := by omega
  have hse' : ¬ s > e := by omega
  refine ⟨?_, ?_, ?_⟩
  · intro hp
    simp [parse_start_and_end, he', hse', hp]
  · intro hs hb b hp
    simp [parse_start_and_end, he', hse', hp, hs, hb]
  · intro hs hp
    have hs' : ¬ s < 0 := by omega
    simp [parse_start_and_end, he', hse', hp, hs', pruneCheck]

theorem c4_malformed_chain_info_witness :
    parse_start_and_end 7 9 ⟨some 100, none, none⟩ false =
      .error (.malformedChainInfo
        "Blockchain info data does not contain the prune status") ∧
    parse_start_and_end (-7) 9 ⟨none, some true, some 3⟩ false =
      .error (.malformedChainInfo
        "Blockchain info data does not contain the number of blocks") ∧
    parse_start_and_end 7 9 ⟨none, some false, none⟩ false = .ok (7, 9) := by
  refine ⟨?_, ?_, ?_⟩
  · exact (c4_malformed_chain_info 7 9 ⟨some 100, none, none⟩ false (by decide)
      (by decide)).1 rfl
  · exact (c4_malformed_chain_info (-7) 9 ⟨none, some true, some 3⟩ false (by decide)
      (by decide)).2.1 (by decide) rfl true rfl
  · exact (c4_malformed_chain_info 7 9 ⟨none, some false, none⟩ false (by decide)
      (by decide)).2.2 (by decide) rfl

/-- **C6.** Pruning enforcement, for every resolved pair reaching the
pruning block with prune height `P`: a resolved `end` below `P` fails with
the prune-range error; with `end ≥ P` and resolved `start < P`, `force`
clamps the start to `P` and returns `(P, end)`, while without `force` the
resolver fails with the prune-range error whose message directs the user to
the `force=True` option.  In particular (spec example) pruneheight 50,
`start = 30`, `end = 80`, `force` returns `(50, 80)`. -/
theorem c6_prune_range_enforcement (s e P : Int) (blocks : Option Int) :
    (e < P → ∀ force,
      pruneCheck ⟨blocks, some true, some P⟩ force s e =
        .error (.invalidEnd
          ("End block height is lower than the lowest-height complete block stored (" ++
            toString P ++ ")"))) ∧
    (P ≤ e → s < P →
      pruneCheck ⟨blocks, some true, some P⟩ true s e = .ok (P, e) ∧
      pruneCheck ⟨blocks, some true, some P⟩ false s e =
        .error (.invalidStart (pruneStartMessage P)) ∧
      ∃ pre, pruneStartMessage P = pre ++ "add argument \x60force=True\x60") ∧
    parse_start_and_end 30 80 ⟨some 100, some true, some 50⟩ true = .ok (50, 80) := by
  refine ⟨?_, ?_, rfl⟩
  · intro h force
    simp [pruneCheck, h]
  · intro he hs
    have he' : ¬ e < P := by omega
    refine ⟨by simp [pruneCheck, he', hs], by simp [pruneCheck, he', hs], ?_⟩
    exact ⟨"Start block height is lower than the lowest-height complete block stored (" ++
      toString P ++ "), if you want to scan anyway starting from lowest available height ",
      rfl⟩

theorem c6_prune_range_enforcement_witness :
    pruneCheck ⟨some 100, some true, some 50⟩ false 55 40 =
      .error (.invalidEnd
        ("End block height is lower than the lowest-height complete block stored (" ++
          toString (50 : Int) ++ ")")) ∧
    pruneCheck ⟨some 100, some true, some 50⟩ true 30 80 = .ok (50, 80) ∧
    pruneCheck ⟨some 100, some true, some 50⟩ false 30 80 =
      .error (.invalidStart (pruneStartMessage 50)) := by
  refine ⟨?_, ?_, ?_⟩
  · exact (c6_prune_range_enforcement 55 40 50 (some 100)).1 (by decide) false
  · exact ((c6_prune_range_enforcement 30 80 50 (some 100)).2.1 (by decide) (by decide)).1
  · exact ((c6_prune_range_enforcement 30 80 50 (some 100)).2.1 (by decide) (by decide)).2.1

/-- **C2 (counterexample).** A coinbase transaction candidate whose raw data
carries a node-reported `'fee'` key does *not* report `abs_fee = 0`:
`abs_fee` returns the raw fee before the coinbase check ever runs. -/
theorem c2_coinbase_counterexample :
    is_coinbase ⟨[⟨true, none⟩], [⟨1, none, none⟩], some 5, some 100⟩ = some true ∧
    abs_fee ⟨[⟨true, none⟩], [⟨1, none, none⟩], some 5, some 100⟩ = some 5 ∧
    abs_fee ⟨[⟨true, none⟩], [⟨1, none, none⟩], some 5, some 100⟩ ≠ some 0 :=
  ⟨rfl, rfl, by decide⟩

/-- **C2 (amended).** For every transaction candidate whose first input
marks it as coinbase: `rel_fee = 0` and the input-address and input-type
sequences are empty, regardless of all other raw fields; `abs_fee = 0` when
the raw data has no node-reported `'fee'` key, but when a `'fee'` key is
present `abs_fee` returns that reported value instead (even for coinbase). -/
theorem c2_coinbase_fields (tx : RawTx) (i : TxIn) (rest : List TxIn)
    (hvin : tx.vin = i :: rest) (hcb : i.hasCoinbase = true) :
    (tx.fee = none → abs_fee tx = some 0) ∧
    (∀ f, tx.fee = some f → abs_fee tx = some f) ∧
    rel_fee tx = some 0 ∧ in_addrs tx = some [] ∧ in_types tx = some [] := by
  have hic : is_coinbase tx = some true := by
    simp [is_coinbase, hvin, hcb]
  refine ⟨?_, ?_, ?_, ?_, ?_⟩
  · intro hf
    simp [abs_fee, hf, hic]
  · intro f hf
    simp [abs_fee, hf]
  · simp [rel_fee, hic]
  · simp [in_addrs, hic]
  · simp [in_types, hic]

theorem c2_coinbase_fields_witness :
    abs_fee ⟨[⟨true, none⟩], [⟨1, none, none⟩], none, some 100⟩ = some 0 ∧
    rel_fee ⟨[⟨true, none⟩], [⟨1, none, none⟩], none, some 100⟩ = some 0 ∧
    in_addrs ⟨[⟨true, none⟩], [⟨1, none, none⟩], none, some 100⟩ = some [] ∧
    in_types ⟨[⟨true, none⟩], [⟨1, none, none⟩], none, some 100⟩ = some [] := by
  have h := c2_coinbase_fields ⟨[⟨true, none⟩], [⟨1, none, none⟩], none, some 100⟩
    ⟨true, none⟩ [] rfl rfl
  exact ⟨h.1 rfl, h.2.2.1, h.2.2.2.1, h.2.2.2.2⟩

/-- Helper: the entry selected by `most_common1`'s fold is one of the
candidates it was folded over. -/
theorem foldl_pick_mem (rest : List (Rat × Nat)) (p : Rat × Nat) :
    rest.foldl (fun best q => if best.2 < q.2 then q else best) p ∈ p :: rest := by
  induction rest generalizing p with
  | nil => simp
  | cons q rest ih =>
    have h := ih (if p.2 < q.2 then q else p)
    simp only [List.foldl_cons]
    by_cases hc : p.2 < q.2 <;>
      simp only [hc, if_true, if_false, List.mem_cons] at h ⊢ <;> tauto

/-- Helper: when every candidate count equals the starting count, the fold
of `most_common1` keeps the starting entry (strict comparison). -/
theorem foldl_pick_const (rest : List (Rat × Nat)) (p : Rat × Nat)
    (h : ∀ q ∈ rest, q.2 = p.2) :
    rest.foldl (fun best q => if best.2 < q.2 then q else best) p = p := by
  induction rest with
  | nil => rfl
  | cons q rest ih =>
    have hq : q.2 = p.2 := h q (by simp)
    have hrest : ∀ r ∈ rest, r.2 = p.2 := fun r hr => h r (by simp [hr])
    simp only [List.foldl_cons, hq, lt_self_iff_false, if_false]
    exact ih hrest

/-- Helper: every count stored in a counter built by `addToCounter` folds is
at least 1, provided the accumulator's counts are. -/
theorem counter_foldl_counts_pos (xs : List Rat) :
    ∀ acc : List (Rat × Nat), (∀ p ∈ acc, 1 ≤ p.2) →
      ∀ p ∈ xs.foldl addToCounter acc, 1 ≤ p.2 := by
  induction xs with
  | nil => intro acc hacc p hp; exact hacc p hp
  | cons x xs ih =>
    intro acc hacc p hp
    refine ih (addToCounter acc x) ?_ p hp
    intro q hq
    unfold addToCounter at hq
    by_cases hx : acc.any (fun p => p.1 == x)
    · rw [if_pos hx] at hq
      obtain ⟨r, hr, hrq⟩ := List.mem_map.mp hq
      by_cases hrx : r.1 == x
      · rw [if_pos hrx] at hrq
        subst hrq
        have := hacc r hr
        omega
      · rw [if_neg hrx] at hrq
        subst hrq
        exact hacc r hr
    · rw [if_neg hx] at hq
      rcases List.mem_append.mp hq with hq | hq
      · exact hacc q hq
      · simp at hq
        simp [hq]

/-- Helper: `most_common1` only returns entries of the counter it is given. -/
theorem most_common1_mem (c : List (Rat × Nat)) (p : Rat × Nat)
    (h : most_common1 c = some p) : p ∈ c := by
  match c with
  | [] => cases h
  | q :: rest =>
    simp only [most_common1, Option.some.injEq] at h
    rw [← h]
    exact foldl_pick_mem rest q

/-- Helper: folding `addToCounter` over pairwise-distinct values none of
which is already a key of the accumulator just appends singleton counts. -/
theorem counter_foldl_nodup (xs : List Rat) :
    ∀ acc : List (Rat × Nat), xs.Nodup → (∀ y ∈ xs, ∀ p ∈ acc, p.1 ≠ y) →
      xs.foldl addToCounter acc = acc ++ xs.map (fun v => (v, 1)) := by
  induction xs with
  | nil => intro acc _ _; simp
  | cons x xs ih =>
    intro acc hnd hdisj
    have hx : ¬ acc.any (fun p => p.1 == x) := by
      simp only [List.any_eq_true, beq_iff_eq, not_exists, not_and]
      intro p hp
      exact hdisj x (by simp) p hp
    have hstep : addToCounter acc x = acc ++ [(x, 1)] := by
      rw [addToCounter, if_neg hx]
    have hnd' : xs.Nodup := hnd.of_cons
    have hdisj' : ∀ y ∈ xs, ∀ p ∈ acc ++ [(x, 1)], p.1 ≠ y := by
      intro y hy p hp
      rcases List.mem_append.mp hp with hp | hp
      · exact hdisj y (by simp [hy]) p hp
      · simp at hp
        rw [hp]
        intro heq
        have hxy : x = y := heq
        rw [hxy] at hnd
        exact (List.nodup_cons.mp hnd).1 hy
    calc (x :: xs).foldl addToCounter acc
        = xs.foldl addToCounter (acc ++ [(x, 1)]) := by rw [List.foldl_cons, hstep]
      _ = (acc ++ [(x, 1)]) ++ xs.map (fun v => (v, 1)) := ih _ hnd' hdisj'
      _ = acc ++ (x :: xs).map (fun v => (v, 1)) := by simp

/-- **C8.** Whenever `n_eq` (the highest frequency among the output values)
is defined it is at least 1; and for a transaction candidate with at least
one output whose output values are pairwise distinct, `n_eq = 1` and
`den = 0`. -/
theorem c8_n_eq_den (tx : RawTx) :
    (∀ k, n_eq tx = some k → 1 ≤ k) ∧
    ((out_values tx).Nodup → tx.vout ≠ [] →
      n_eq tx = some 1 ∧ den tx = some 0) := by
  constructor
  · intro k hk
    simp only [n_eq, Option.map_eq_some'] at hk
    obtain ⟨p, hp, hpk⟩ := hk
    have hmem : p ∈ out_counter tx := most_common1_mem _ p hp
    have := counter_foldl_counts_pos (out_values tx) [] (by simp) p hmem
    omega
  · intro hnd hne
    have hc : out_counter tx = (out_values tx).map (fun v => (v, 1)) := by
      unfold out_counter counter
      exact counter_foldl_nodup (out_values tx) [] hnd (by simp)
    have hvne : out_values tx ≠ [] := by
      simp only [out_values, ne_eq, List.map_eq_nil_iff]
      exact hne
    match hv : out_values tx with
    | [] => exact absurd hv hvne
    | v :: rest =>
      have hmc : most_common1 (out_counter tx) = some (v, 1) := by
        rw [hc, hv, List.map_cons, most_common1]
        congr 1
        refine foldl_pick_const _ _ ?_
        intro q hq
        obtain ⟨r, _, hrq⟩ := List.mem_map.mp hq
        rw [← hrq]
      have hn : n_eq tx = some 1 := by
        simp [n_eq, hmc]
      refine ⟨hn, ?_⟩
      simp [den, hn]

theorem c8_n_eq_den_witness :
    n_eq ⟨[], [⟨1, none, none⟩, ⟨2, none, none⟩], none, none⟩ = some 1 ∧
    den ⟨[], [⟨1, none, none⟩, ⟨2, none, none⟩], none, none⟩ = some 0 ∧
    (∀ k, n_eq ⟨[], [⟨1, none, none⟩, ⟨2, none, none⟩], none, none⟩ = some k →
      1 ≤ k) := by
  have h := c8_n_eq_den ⟨[], [⟨1, none, none⟩, ⟨2, none, none⟩], none, none⟩
  have h2 := h.2 (by decide) (by decide)
  exact ⟨h2.1, h2.2, h.1⟩

/-- Helper: a run of data chunks (neither sentinel) is accumulated into the
running buffer without yielding anything. -/
theorem get_buffers_data_run (cs : List Chunk) :
    ∀ (buffer : Chunk) (rest : List Chunk),
      (∀ c ∈ cs, c ≠ [] ∧ c ≠ endMarker) →
      get_buffers buffer (cs ++ rest) = get_buffers (buffer ++ cs.flatten) rest := by
  induction cs with
  | nil => intro buffer rest _; simp
  | cons c cs ih =>
    intro buffer rest h
    have hc := h c (by simp)
    rw [List.cons_append, get_buffers, if_neg hc.1, if_neg hc.2,
      ih (buffer ++ c) rest (fun x hx => h x (by simp [hx]))]
    simp

/-- Helper: the end-of-stream sentinel stops `get_buffers`, discarding the
running buffer. -/
theorem get_buffers_end (buffer : Chunk) :
    get_buffers buffer [endMarker] = [] := rfl

/-- Helper: an end-of-item marker yields the running buffer and resets it. -/
theorem get_buffers_item_marker (buffer : Chunk) (rest : List Chunk) :
    get_buffers buffer ([] :: rest) = buffer :: get_buffers [] rest := rfl

/-- Helper: decoding a well-framed run of items followed by anything:
each item's chunks are concatenated and yielded at its end-of-item marker. -/
theorem get_buffers_items (items : List (List Chunk)) :
    ∀ rest : List Chunk,
      (∀ cs ∈ items, ∀ c ∈ cs, c ≠ [] ∧ c ≠ endMarker) →
      get_buffers [] ((items.map (fun cs => cs ++ [[]])).flatten ++ rest) =
        items.map List.flatten ++ get_buffers [] rest := by
  induction items with
  | nil => intro rest _; simp
  | cons cs items ih =>
    intro rest h
    rw [List.map_cons, List.flatten_cons, List.append_assoc, List.append_assoc,
      List.singleton_append,
      get_buffers_data_run cs [] _ (h cs (by simp)), List.nil_append,
      get_buffers_item_marker,
      ih rest (fun cs' hcs' => h cs' (by simp [hcs']))]
    simp

/-- **C5.** Round trip through the framing protocol: for every finite run of
items, each sent as its chunks followed by one end-of-item marker and the
whole stream closed by one end-of-stream marker (all data chunks distinct
from both sentinels), the Decoder yields exactly one raw candidate per item,
in order, and each is the JSON decoding (`loads`) of the concatenation of
exactly that item's chunks. -/
theorem c5_decoder_round_trip {J : Type} (loads : Chunk → J)
    (items : List (List Chunk))
    (h : ∀ cs ∈ items, ∀ c ∈ cs, c ≠ [] ∧ c ≠ endMarker) :
    get_raw_candidates loads (encodeStream items) =
      items.map (fun cs => loads cs.flatten) := by
  unfold get_raw_candidates encodeStream
  rw [get_buffers_items items [endMarker] h, get_buffers_end, List.append_nil,
    List.map_map]
  rfl

theorem c5_decoder_round_trip_witness :
    (∀ cs ∈ [[[1],[2,3]],[[4]]], ∀ c ∈ cs, c ≠ ([] : Chunk) ∧ c ≠ endMarker) ∧
    get_raw_candidates (fun c => c) (encodeStream [[[1],[2,3]],[[4]]]) =
      [[1,2,3],[4]] := by
  refine ⟨by decide, ?_⟩
  rw [c5_decoder_round_trip (fun c => c) [[[1],[2,3]],[[4]]] (by decide)]
  rfl

/-- Helper: the mempool V2 buffer reader passes every buffer through until
the end-of-stream sentinel. -/
theorem mempool_get_buffers_data (bufs : List Chunk)
    (h : ∀ b ∈ bufs, b ≠ endMarker) :
    mempool_get_buffers (bufs ++ [endMarker]) = bufs := by
  induction bufs with
  | nil => rfl
  | cons b bufs ih =>
    rw [List.cons_append, mempool_get_buffers, if_neg (h b (by simp)),
      ih (fun x hx => h x (by simp [hx]))]

/-- Helper: the mempool V2 raw-candidate loop consumes buffers in threes and
silently drops a trailing group of fewer than three. -/
theorem mempool_raw_candidates_triples {J : Type} (loads : Chunk → J)
    (triples : List (Chunk × Chunk × Chunk)) :
    ∀ leftover : List Chunk, leftover.length ≤ 2 →
      mempool_raw_candidates loads (encodeMempoolStream triples ++ leftover) =
        triples.map (fun t =>
          ⟨loads t.1, int_from_bytes t.2.1, int_from_bytes t.2.2⟩) := by
  induction triples with
  | nil =>
    intro leftover hlen
    match leftover with
    | [] => rfl
    | [a] => rfl
    | [a, b] => rfl
    | a :: b :: c :: _ => simp at hlen
  | cons t ts ih =>
    intro leftover hlen
    rw [encodeMempoolStream, List.map_cons, List.flatten_cons]
    show mempool_raw_candidates loads
      (t.1 :: t.2.1 :: t.2.2 :: (encodeMempoolStream ts ++ leftover)) = _
    rw [mempool_raw_candidates, ih leftover hlen, List.map_cons]

/-- **C10.** An end-of-stream marker arriving over a partially accumulated
item makes the Decoder silently discard that partial item while still
yielding every previously completed item, with no error: for the base
framing, a trailing run of data chunks not closed by an end-of-item marker
is dropped; for the mempool V2 framing, a trailing transaction buffer
without its height and timestamp buffers (fewer than three trailing
buffers) is dropped. -/
theorem c10_partial_item_discarded {J : Type} (loads : Chunk → J)
    (items : List (List Chunk)) (partialItem : List Chunk)
    (hitems : ∀ cs ∈ items, ∀ c ∈ cs, c ≠ [] ∧ c ≠ endMarker)
    (hpartChunks : ∀ c ∈ partialItem, c ≠ [] ∧ c ≠ endMarker)
    (triples : List (Chunk × Chunk × Chunk)) (leftover : List Chunk)
    (htriples : ∀ t ∈ triples,
      t.1 ≠ endMarker ∧ t.2.1 ≠ endMarker ∧ t.2.2 ≠ endMarker)
    (hleft : ∀ b ∈ leftover, b ≠ endMarker) (hlen : leftover.length ≤ 2) :
    get_raw_candidates loads
        ((items.map (fun cs => cs ++ [[]])).flatten ++ partialItem ++ [endMarker]) =
      items.map (fun cs => loads cs.flatten) ∧
    mempool_raw_candidates loads
        (mempool_get_buffers (encodeMempoolStream triples ++ leftover ++ [endMarker])) =
      triples.map (fun t =>
        ⟨loads t.1, int_from_bytes t.2.1, int_from_bytes t.2.2⟩) := by
  constructor
  · unfold get_raw_candidates
    rw [List.append_assoc, get_buffers_items items (partialItem ++ [endMarker]) hitems,
      get_buffers_data_run partialItem [] [endMarker] hpartChunks, List.nil_append,
      get_buffers_end, List.append_nil, List.map_map]
    rfl
  · have hall : ∀ b ∈ encodeMempoolStream triples ++ leftover, b ≠ endMarker := by
      intro b hb
      rcases List.mem_append.mp hb with hb | hb
      · rw [encodeMempoolStream] at hb
        obtain ⟨l, hl, hbl⟩ := List.mem_flatten.mp hb
        obtain ⟨t, ht, htl⟩ := List.mem_map.mp hl
        have := htriples t ht
        rw [← htl] at hbl
        simp only [List.mem_cons, List.mem_singleton] at hbl
        rcases hbl with h | h | h | h
        · rw [h]; exact this.1
        · rw [h]; exact this.2.1
        · rw [h]; exact this.2.2
        · simp at h
      · exact hleft b hb
    rw [mempool_get_buffers_data _ hall,
      mempool_raw_candidates_triples loads triples leftover hlen]

theorem c10_partial_item_discarded_witness :
    get_raw_candidates (fun c => c)
        (([[[1],[2]]].map (fun cs => cs ++ [[]])).flatten ++ [[7],[8]] ++ [endMarker]) =
      [[1,2]] ∧
    mempool_raw_candidates (fun c => c)
        (mempool_get_buffers
          (encodeMempoolStream [([9],[1],[2])] ++ [[5]] ++ [endMarker])) =
      [⟨[9], 1, 2⟩] := by
  exact c10_partial_item_discarded (fun c => c) [[[1],[2]]] [[7],[8]]
    (by decide) (by decide) [([9],[1],[2])] [[5]]
    (by decide) (by decide) (by decide)

/-- **C9.** With zero filters, the Scan Orchestrator's match policy
degenerates to accept-all: `iter_filter_block_txs` yields every wrapped
transaction of the block in order, and the `scan_mem` collection loop keeps
every candidate of the sequence in order. -/
theorem c9_zero_filters_accept_all {R : Type} (block : BlockRec R)
    (match_all : Bool) (txs : List (WrappedTx R)) :
    iter_filter_block_txs block match_all [] = iterate_block_txs block ∧
    scan_mem_collect match_all [] txs = txs := by
  constructor <;> simp [iter_filter_block_txs, scan_mem_collect]

end Observatory
